import Mathlib

/-!
Shallow embedding of `docker-pullator` (src/main.rs) and verification of the
frozen claims about its specification.

The program maintains a config of pull profiles (library?, repo, tags),
pulls the declared tags, and pushes them to a destination registry while
resolving digest-based tag aliases from a fetched tag listing.  External
effects (the Docker Hub HTTP API and the `docker` executable) are modelled
as oracles passed in as function parameters; everything else is translated
directly from the Rust source.
-/

set_option maxHeartbeats 1000000

/-- Mirrors struct `FetchTagsImageItem` (main.rs): one platform entry. -/
structure FetchTagsImageItem where
  os : String
  architecture : String
deriving DecidableEq, Repr

/-- Mirrors struct `FetchTagsItem` (main.rs): one tag descriptor with an
optional content digest. -/
structure FetchTagsItem where
  name : String
  images : List FetchTagsImageItem
  digest : Option String
deriving DecidableEq, Repr

/-- Mirrors struct `FetchTagsResponse` (main.rs). -/
structure FetchTagsResponse where
  results : List FetchTagsItem
deriving DecidableEq, Repr

/-- Mirrors struct `PullProfile` (main.rs). `tags` is a `Vec<String>`:
a plain list, duplicates possible, insertion order kept. -/
structure PullProfile where
  library : Option String
  repo : String
  tags : List String
deriving DecidableEq, Repr

/-- Mirrors fn `image_name` (main.rs line 321). -/
def image_name (library : Option String) (repo : String) : String :=
  match library with
  | some l => l ++ "/" ++ repo
  | none => repo

/-- Mirrors `PullProfile::image` (main.rs line 366). -/
def PullProfile.image (p : PullProfile) : String :=
  image_name p.library p.repo

/-- Mirrors struct `Config` (main.rs): `BTreeMap<String, PullProfile>`,
modelled as an association list with at most one entry per key, kept in
sorted key order by `insertSorted`. -/
structure Config where
  pull_profiles : List (String × PullProfile)
deriving DecidableEq, Repr

/-- Association-list lookup, the model of `BTreeMap::get` / `HashMap::get`. -/
def mapLookup {α : Type} (m : List (String × α)) (k : String) : Option α :=
  (m.find? (fun p => p.1 == k)).map (fun p => p.2)

/-- `BTreeMap` insertion model: replaces the entry at an existing key,
otherwise inserts at the sorted position. -/
def insertSorted (m : List (String × PullProfile)) (k : String) (v : PullProfile) :
    List (String × PullProfile) :=
  match m with
  | [] => [(k, v)]
  | (k1, v1) :: rest =>
    if k < k1 then (k, v) :: (k1, v1) :: rest
    else if k = k1 then (k, v) :: rest
    else (k1, v1) :: insertSorted rest k v

/-- `BTreeMap::remove` model: drops the entry at the key. -/
def removeKey (m : List (String × PullProfile)) (k : String) :
    List (String × PullProfile) :=
  m.filter (fun p => !(p.1 == k))

/-- `Config` lookup by canonical image key. -/
def Config.lookup (c : Config) (k : String) : Option PullProfile :=
  mapLookup c.pull_profiles k

/-- Mirrors the core of fn `add` (main.rs lines 262-271): after library,
repo and tags are resolved by flags/prompts, the profile for the image key
is fetched or created empty (`entry().or_insert_with`), and the resolved
tags are appended to its tag vector (`profile.tags.extend(tags)`). -/
def add (config : Config) (library : Option String) (repo : String)
    (tags : List String) : Config :=
  let key := image_name library repo
  let profile :=
    match mapLookup config.pull_profiles key with
    | some p => p
    | none => { library := library, repo := repo, tags := [] }
  ⟨insertSorted config.pull_profiles key { profile with tags := profile.tags ++ tags }⟩

/-- Mirrors the core of fn `edit` (main.rs lines 196-215): given the chosen
profile key and the tags the user kept, replace the profile's tags; if the
kept set is empty the profile is removed from the config.  Returns `none`
when the chosen key has no profile (the code's `expect` panic). -/
def edit (config : Config) (image : String) (keptTags : List String) :
    Option Config :=
  match Config.lookup config image with
  | none => none
  | some profile =>
    let profile2 := { profile with tags := keptTags }
    if profile2.tags.isEmpty then some ⟨removeKey config.pull_profiles image⟩
    else some ⟨insertSorted config.pull_profiles image profile2⟩

/-- Mirrors the target-list computation in fn `push` (main.rs lines 141-152):
start from the requested tag's target, find the descriptor named like the
requested tag, and if found extend with one target per descriptor whose
digest equals the found descriptor's digest (`Option<String>` equality). -/
def pushTargets (registry image tag : String) (response : FetchTagsResponse) :
    List String :=
  let targets := [registry ++ "/" ++ image ++ ":" ++ tag]
  match response.results.find? (fun item => item.name == tag) with
  | none => targets
  | some item =>
    targets ++
      (response.results.filter (fun x => x.digest == item.digest)).map
        (fun item => registry ++ "/" ++ image ++ ":" ++ item.name)

/-- Oracle for fn `fetch_tags` as used by `push`: the outcome of fetching the
tag listing for one `(library, repo)` pair; `Except.error` is a network or
parse failure. -/
abbrev FetchOracle := Option String → String → Except String FetchTagsResponse

/-- Oracle for `docker_command` invocations: maps the argument list of one
`docker` call to its outcome.  `Except.error` means the process could not be
launched (the `io::Result` error of `.output()` / `.status()`);
`Except.ok c` means the process ran and exited with status `c`. -/
abbrev Executor := List String → Except String Int

/-- Mirrors the per-target loop in fn `push` (main.rs lines 154-174): for
each target run `docker tag <image>:<tag> <target>`, `docker push <target>`,
`docker image rm <target>` via `.output()`.  A launch failure propagates
(`?`) and aborts; exit statuses are never inspected.  Returns the commands
attempted and the propagated error, if any. -/
def pushTagStep (exec : Executor) (image tag : String) :
    List String → List (List String) × Option String
  | [] => ([], none)
  | target :: rest =>
    match exec ["tag", image ++ ":" ++ tag, target] with
    | .error _ => ([["tag", image ++ ":" ++ tag, target]], some "Failed to tag image")
    | .ok _ =>
      match exec ["push", target] with
      | .error _ =>
        ([["tag", image ++ ":" ++ tag, target], ["push", target]],
         some "Failed to push image")
      | .ok _ =>
        match exec ["image", "rm", target] with
        | .error _ =>
          ([["tag", image ++ ":" ++ tag, target], ["push", target],
            ["image", "rm", target]],
           some "Failed to remove image")
        | .ok _ =>
          let r := pushTagStep exec image tag rest
          (["tag", image ++ ":" ++ tag, target] :: ["push", target] ::
            ["image", "rm", target] :: r.1, r.2)

/-- Observable outcome of the push loop: identities actually fetched (in
order), the `(identity, response)` used for each processed `(profile, tag)`
pair, the docker commands attempted, the propagated error if the loop
aborted, and the final response cache. -/
structure PushOut where
  fetched : List String
  used : List (String × FetchTagsResponse)
  cmds : List (List String)
  err : Option String
  cache : List (String × FetchTagsResponse)
deriving DecidableEq, Repr

/-- Mirrors the nested profile/tag loop of fn `push` (main.rs lines 127-176),
flattened over `(profile, tag)` pairs.  Per pair: serve the tag listing from
the `responses` cache or call `fetch_tags` and insert (a fetch failure
propagates with `?` and ends the whole loop), compute the targets, and run
the three docker sub-steps per target (a launch failure propagates and ends
the whole loop). -/
def pushLoop (fetch : FetchOracle) (exec : Executor) (registry : String) :
    List (PullProfile × String) → List (String × FetchTagsResponse) → PushOut
  | [], cache => { fetched := [], used := [], cmds := [], err := none, cache := cache }
  | (profile, tag) :: rest, cache =>
    match mapLookup cache profile.image with
    | some response =>
      let step := pushTagStep exec profile.image tag
        (pushTargets registry profile.image tag response)
      match step.2 with
      | some e =>
        { fetched := [], used := [(profile.image, response)], cmds := step.1,
          err := some e, cache := cache }
      | none =>
        let r := pushLoop fetch exec registry rest cache
        { fetched := r.fetched, used := (profile.image, response) :: r.used,
          cmds := step.1 ++ r.cmds, err := r.err, cache := r.cache }
    | none =>
      match fetch profile.library profile.repo with
      | .error _ =>
        { fetched := [profile.image], used := [], cmds := [],
          err := some "Failed to fetch tags", cache := cache }
      | .ok response =>
        let cache2 := (profile.image, response) :: cache
        let step := pushTagStep exec profile.image tag
          (pushTargets registry profile.image tag response)
        match step.2 with
        | some e =>
          { fetched := [profile.image], used := [(profile.image, response)],
            cmds := step.1, err := some e, cache := cache2 }
        | none =>
          let r := pushLoop fetch exec registry rest cache2
          { fetched := profile.image :: r.fetched,
            used := (profile.image, response) :: r.used,
            cmds := step.1 ++ r.cmds, err := r.err, cache := r.cache }

/-- The `(profile, tag)` pairs a config's nested loops iterate over:
profiles in `BTreeMap::values()` order, tags in vector order. -/
def configPairs (config : Config) : List (PullProfile × String) :=
  (config.pull_profiles.map (fun p => p.2)).flatMap
    (fun profile => profile.tags.map (fun tag => (profile, tag)))

/-- Mirrors fn `clean` (main.rs lines 276-291): per profile and tag run
`docker image rm <image>:<tag>` via `.status()`; a launch failure propagates
(`?`), exit statuses are ignored. -/
def cleanLoop (exec : Executor) :
    List (PullProfile × String) → List (List String) × Option String
  | [] => ([], none)
  | (profile, tag) :: rest =>
    let cmd := ["image", "rm", profile.image ++ ":" ++ tag]
    match exec cmd with
    | .error _ => ([cmd], some "Failed to remove image")
    | .ok _ =>
      let r := cleanLoop exec rest
      (cmd :: r.1, r.2)

/-- Mirrors fn `push` (main.rs lines 124-183): run the push loop with an
empty response cache; if it completed without error and `clean` was
requested, run `clean` over the config and append its commands. -/
def push (fetch : FetchOracle) (exec : Executor) (config : Config)
    (registry : String) (clean : Bool) : PushOut :=
  let r := pushLoop fetch exec registry (configPairs config) []
  match r.err with
  | some _ => r
  | none =>
    if clean then
      let c := cleanLoop exec (configPairs config)
      { r with cmds := r.cmds ++ c.1, err := c.2 }
    else r

/-- Mirrors fn `pull` (main.rs lines 301-319): per profile and tag run
`docker pull <image>:<tag>` via `.status()`; a launch failure propagates
(`?`), and a non-zero exit status bails out immediately
(`anyhow::bail!("Pull failed with status: {status}")`). -/
def pullLoop (exec : Executor) :
    List (PullProfile × String) → List (List String) × Option String
  | [] => ([], none)
  | (profile, tag) :: rest =>
    let cmd := ["pull", profile.image ++ ":" ++ tag]
    match exec cmd with
    | .error _ => ([cmd], some "Failed to pull image")
    | .ok status =>
      if status = 0 then
        let r := pullLoop exec rest
        (cmd :: r.1, r.2)
      else ([cmd], some ("Pull failed with status: " ++ toString status))

/-- Observable outcome of `sync`: pull commands run, identities fetched
during push, push-phase commands run, and the propagated error if any. -/
structure SyncOut where
  fetched : List String
  pullCmds : List (List String)
  pushCmds : List (List String)
  err : Option String
deriving DecidableEq, Repr

/-- Mirrors fn `sync` (main.rs lines 110-122): `pull(&config).await?` then
`push(...)` — a pull error propagates before any push work starts. -/
def sync (fetch : FetchOracle) (exec : Executor) (config : Config)
    (registry : String) (clean : Bool) : SyncOut :=
  let pr := pullLoop exec (configPairs config)
  match pr.2 with
  | some e => { fetched := [], pullCmds := pr.1, pushCmds := [], err := some e }
  | none =>
    let ps := push fetch exec config registry clean
    { fetched := ps.fetched, pullCmds := pr.1, pushCmds := ps.cmds, err := ps.err }

/-- The tags-listing URL built by fn `fetch_tags` (main.rs lines 335-339):
one request, `library` defaulted to `"library"`, fixed `page_size=100`. -/
def tagsUrl (library : Option String) (repo : String) : String :=
  "https://hub.docker.com/v2/repositories/" ++ library.getD "library" ++ "/" ++
    repo ++ "/tags?page_size=100"

/-- Mirrors fn `fetch_tags` (main.rs lines 329-351) over an HTTP oracle
(`http url` = the parsed response of a single GET of `url`): the function
issues exactly one request, for `tagsUrl`, and returns its payload — it
never follows pagination. -/
def fetch_tags (http : String → Except String FetchTagsResponse)
    (library : Option String) (repo : String) : Except String FetchTagsResponse :=
  http (tagsUrl library repo)

/-- Concrete fetch oracle: the fetch for repo `a` fails, every other fetch
returns an empty listing. -/
def fetchFailA : FetchOracle := fun _ repo =>
  if repo = "a" then .error "network unreachable" else .ok ⟨[]⟩

/-- Concrete fetch oracle: every fetch returns an empty listing. -/
def fetchEmptyOk : FetchOracle := fun _ _ => .ok ⟨[]⟩

/-- Concrete executor: every command launches and exits 0. -/
def execOk : Executor := fun _ => .ok 0

/-- Concrete executor: no command can be launched. -/
def execLaunchFail : Executor := fun _ => .error "spawn failed"

/-- Concrete executor: the pull of `img:t2` exits 1, everything else exits 0. -/
def execPullFailsSecond : Executor := fun args =>
  if args = ["pull", "img:t2"] then .ok 1 else .ok 0

/-- Concrete config with two profiles, `a` first. -/
def cfgTwo : Config :=
  ⟨[("a", { library := none, repo := "a", tags := ["t"] }),
    ("b", { library := none, repo := "b", tags := ["t"] })]⟩

/-- Concrete config with one profile and two tags. -/
def cfgOneTwoTags : Config :=
  ⟨[("img", { library := none, repo := "img", tags := ["t1", "t2"] })]⟩

/-- First page of a paginated tag listing. -/
def pageOne : FetchTagsResponse :=
  ⟨[{ name := "a", images := [], digest := some "D" }]⟩

/-- Second page of a paginated tag listing. -/
def pageTwo : FetchTagsResponse :=
  ⟨[{ name := "b", images := [], digest := some "E" }]⟩

/-- HTTP oracle of a registry whose tag listing for `nginx` spans two
pages: the page-size-100 URL serves `pageOne`, its `&page=2` continuation
serves `pageTwo`. -/
def hubTwoPages : String → Except String FetchTagsResponse := fun url =>
  if url = tagsUrl none "nginx" then .ok pageOne
  else if url = tagsUrl none "nginx" ++ "&page=2" then .ok pageTwo
  else .error "not found"

theorem mapLookup_cons {α : Type} (k k' : String) (v : α) (m : List (String × α)) :
    mapLookup ((k, v) :: m) k' = if k = k' then some v else mapLookup m k' := by
  by_cases h : k = k'
  · simp [mapLookup, List.find?_cons, h]
  · have hb : (k == k') = false := by simp [h]
    simp [mapLookup, List.find?_cons, hb, h]

theorem mapLookup_insertSorted_self (m : List (String × PullProfile)) (k : String)
    (v : PullProfile) :
    mapLookup (insertSorted m k v) k = some v := by
  induction m with
  | nil => simp [insertSorted, mapLookup_cons]
  | cons hd tl ih =>
    obtain ⟨k1, v1⟩ := hd
    by_cases hlt : k < k1
    · simp [insertSorted, hlt, mapLookup_cons]
    · by_cases heq : k = k1
      · simp [insertSorted, hlt, heq, mapLookup_cons]
      · have hne : k1 ≠ k := fun hh => heq hh.symm
        simp [insertSorted, hlt, heq, mapLookup_cons, hne, ih]

theorem mapLookup_insertSorted_ne (m : List (String × PullProfile)) (k k' : String)
    (v : PullProfile) (h : k' ≠ k) :
    mapLookup (insertSorted m k v) k' = mapLookup m k' := by
  have h2 : k ≠ k' := fun hh => h hh.symm
  induction m with
  | nil => simp [insertSorted, mapLookup_cons, h2, mapLookup]
  | cons hd tl ih =>
    obtain ⟨k1, v1⟩ := hd
    by_cases hlt : k < k1
    · simp [insertSorted, hlt, mapLookup_cons, h2]
    · by_cases heq : k = k1
      · have hk1 : k1 ≠ k' := by rw [← heq]; exact h2
        simp [insertSorted, hlt, heq, mapLookup_cons, h2, hk1]
      · simp [insertSorted, hlt, heq, mapLookup_cons, ih]

theorem mapLookup_removeKey_self (m : List (String × PullProfile)) (k : String) :
    mapLookup (removeKey m k) k = none := by
  have hnone : (removeKey m k).find? (fun p => p.1 == k) = none := by
    rw [List.find?_eq_none]
    intro x hx
    have hmem := (List.mem_filter.mp hx).2
    simp only [Bool.not_eq_true'] at hmem
    simp [hmem]
  simp [mapLookup, hnone]

/-- C1: the claim states that when the requested tag's descriptor has an
absent digest, the push target list is exactly the singleton of the
requested tag, a null digest never matching other null-digest descriptors.
The code compares `Option<String>` digests with `==`, so `None == None`
matches: on a listing where `a` and `b` both lack a digest, pushing `a`
yields the requested target twice plus a target for `b` — not the
singleton the claim (and the spec's null-digest isolation rule) demands. -/
theorem C1_code_behavior :
    pushTargets "reg" "img" "a"
        ⟨[{ name := "a", images := [], digest := none },
          { name := "b", images := [], digest := none }]⟩ =
      ["reg/img:a", "reg/img:a", "reg/img:b"] ∧
    (["reg/img:a", "reg/img:a", "reg/img:b"] : List String) ≠ ["reg/img:a"] :=
  ⟨by decide, by decide⟩

/-- C2 (counterexample): the claim states the push target list contains no
duplicates.  On a listing whose only descriptor is the requested tag `a`
with digest `D`, the code's target list is `["reg/img:a", "reg/img:a"]`:
the initial requested target plus the digest-class match of `a` itself —
never deduplicated. -/
theorem C2_counterexample :
    ¬ (pushTargets "reg" "img" "a"
        ⟨[{ name := "a", images := [], digest := some "D" }]⟩).Nodup := by
  decide

/-- C2 (amended): the push target list is not deduplicated: whenever a
descriptor named like the requested tag is found, the requested tag's
target occurs at least twice in the target list (once as the initial
element and once from the digest equivalence class), and the tag/push/
remove sequence runs once per occurrence. -/
theorem C2_amended (registry image tag : String) (resp : FetchTagsResponse)
    (item : FetchTagsItem)
    (hfind : resp.results.find? (fun item => item.name == tag) = some item) :
    2 ≤ (pushTargets registry image tag resp).count
        (registry ++ "/" ++ image ++ ":" ++ tag) := by
  have hpred := List.find?_some hfind
  have hname : item.name = tag := eq_of_beq hpred
  have hmem : item ∈ resp.results := List.mem_of_find?_eq_some hfind
  have hfilter : item ∈ resp.results.filter (fun x => x.digest == item.digest) :=
    List.mem_filter.mpr ⟨hmem, by simp⟩
  have hmap : registry ++ "/" ++ image ++ ":" ++ tag ∈
      (resp.results.filter (fun x => x.digest == item.digest)).map
        (fun item => registry ++ "/" ++ image ++ ":" ++ item.name) :=
    List.mem_map.mpr ⟨item, hfilter, by rw [hname]⟩
  have hpos := List.count_pos_iff.mpr hmap
  simp only [pushTargets, hfind, List.singleton_append, List.count_cons_self]
  omega

/-- C2 (witness): the amended duplication bound evaluated on a concrete
one-descriptor listing. -/
theorem C2_witness :
    2 ≤ (pushTargets "reg" "img" "a"
        ⟨[{ name := "a", images := [], digest := some "D" }]⟩).count
        ("reg" ++ "/" ++ "img" ++ ":" ++ "a") :=
  C2_amended "reg" "img" "a"
    ⟨[{ name := "a", images := [], digest := some "D" }]⟩
    { name := "a", images := [], digest := some "D" } rfl

/-- C3: when the descriptor found for the requested tag carries digest
`some D`, a string is a push target exactly when it is the formatted target
of a descriptor of the same listing whose digest is `some D` — the digest
equivalence class, which contains the requested tag itself, and never a
tag whose descriptor carries a different digest. -/
theorem C3_aliasing (registry image tag D : String) (resp : FetchTagsResponse)
    (item : FetchTagsItem)
    (hfind : resp.results.find? (fun item => item.name == tag) = some item)
    (hdig : item.digest = some D) (t : String) :
    t ∈ pushTargets registry image tag resp ↔
      ∃ d, d ∈ resp.results ∧ d.digest = some D ∧
        t = registry ++ "/" ++ image ++ ":" ++ d.name := by
  have hpred := List.find?_some hfind
  have hname : item.name = tag := eq_of_beq hpred
  have hmem : item ∈ resp.results := List.mem_of_find?_eq_some hfind
  simp only [pushTargets, hfind, List.singleton_append, List.mem_cons,
    List.mem_map, List.mem_filter]
  constructor
  · rintro (rfl | ⟨x, ⟨hx, hxd⟩, rfl⟩)
    · exact ⟨item, hmem, hdig, by rw [hname]⟩
    · exact ⟨x, hx, by rw [eq_of_beq hxd, hdig], rfl⟩
  · rintro ⟨d, hd, hdd, rfl⟩
    exact Or.inr ⟨d, ⟨hd, by simp [hdd, hdig]⟩, rfl⟩

/-- C3 (witness): on the spec's own scenario — `a` and `b` share digest
`D`, `c` has digest `E` — pushing `a` produces the target for `b`. -/
theorem C3_witness :
    "r/img:b" ∈ pushTargets "r" "img" "a"
      ⟨[{ name := "a", images := [], digest := some "D" },
        { name := "b", images := [], digest := some "D" },
        { name := "c", images := [], digest := some "E" }]⟩ :=
  (C3_aliasing "r" "img" "a" "D"
      ⟨[{ name := "a", images := [], digest := some "D" },
        { name := "b", images := [], digest := some "D" },
        { name := "c", images := [], digest := some "E" }]⟩
      { name := "a", images := [], digest := some "D" } rfl rfl "r/img:b").mpr
    ⟨{ name := "b", images := [], digest := some "D" }, by decide, rfl, by decide⟩

/-- C4 (counterexample): the claim states that invoking Add twice with the
same identity and tags yields a profile containing each tag once.  The code
extends a `Vec<String>` without deduplication: two `add` calls with tag
`a` leave the profile with tags `["a", "a"]`. -/
theorem C4_counterexample :
    Config.lookup (add (add ⟨[]⟩ none "nginx" ["a"]) none "nginx" ["a"]) "nginx" =
      some { library := none, repo := "nginx", tags := ["a", "a"] } ∧
    ¬ (["a", "a"] : List String).Nodup := by
  constructor
  · have h1 : add ⟨[]⟩ none "nginx" ["a"] =
        ⟨[("nginx", { library := none, repo := "nginx", tags := ["a"] })]⟩ := by
      simp [add, mapLookup, insertSorted, image_name]
    rw [h1]
    simp [Config.lookup, add, mapLookup_cons, insertSorted, lt_self_iff_false,
      image_name, mapLookup]
  · decide

/-- C4 (amended): Add appends the resolved tags to the profile's tag vector
without deduplication: starting from an empty config, invoking Add twice
with the same identity and tag list yields exactly one profile whose tag
list is the given list appended to itself — one occurrence per Add call,
not a duplicate-free set. -/
theorem C4_amended (library : Option String) (repo : String) (tags : List String) :
    add (add ⟨[]⟩ library repo tags) library repo tags =
      ⟨[(image_name library repo,
         { library := library, repo := repo, tags := tags ++ tags })]⟩ := by
  have h1 : add ⟨[]⟩ library repo tags =
      ⟨[(image_name library repo,
         { library := library, repo := repo, tags := tags })]⟩ := by
    simp [add, mapLookup, insertSorted]
  rw [h1]
  simp [add, mapLookup_cons, insertSorted, lt_self_iff_false]

/-- C10: Add can leave an empty profile in the store: for an identity not
yet tracked and an empty resolved tag list, `add` inserts a profile with an
empty tag list and retains it; `add` never removes any stored profile; and
`edit` deletes a profile exactly when the kept tag set is empty. -/
theorem C10_add_empty_profile (config : Config) (library : Option String)
    (repo : String)
    (hfresh : Config.lookup config (image_name library repo) = none) :
    Config.lookup (add config library repo []) (image_name library repo) =
      some { library := library, repo := repo, tags := [] } ∧
    (∀ tags k, (Config.lookup config k).isSome →
      (Config.lookup (add config library repo tags) k).isSome) ∧
    (∀ cfg : Config, ∀ key : String, ∀ p : PullProfile,
      Config.lookup cfg key = some p →
      ∃ cfg', edit cfg key [] = some cfg' ∧ Config.lookup cfg' key = none) := by
  refine ⟨?_, ?_, ?_⟩
  · simp only [Config.lookup] at hfresh
    simp only [Config.lookup, add, hfresh]
    simpa using mapLookup_insertSorted_self config.pull_profiles
      (image_name library repo) { library := library, repo := repo, tags := [] }
  · intro tags k hk
    simp only [Config.lookup] at hk ⊢
    by_cases hkey : k = image_name library repo
    · subst hkey
      cases hlook : mapLookup config.pull_profiles (image_name library repo) <;>
        simp [add, hlook, mapLookup_insertSorted_self]
    · cases hlook : mapLookup config.pull_profiles (image_name library repo) <;>
        simp only [add, hlook] <;>
        rw [mapLookup_insertSorted_ne _ _ _ _ hkey] <;>
        exact hk
  · intro cfg key p hp
    refine ⟨⟨removeKey cfg.pull_profiles key⟩, ?_, ?_⟩
    · simp only [Config.lookup] at hp
      simp [edit, Config.lookup, hp]
    · exact mapLookup_removeKey_self cfg.pull_profiles key

/-- C10 (witness): adding a fresh identity with an empty tag list to the
empty config stores an empty profile. -/
theorem C10_witness :
    Config.lookup (add ⟨[]⟩ none "nginx" []) "nginx" =
      some { library := none, repo := "nginx", tags := [] } :=
  (C10_add_empty_profile ⟨[]⟩ none "nginx" rfl).1

/-- C5 (counterexample): the claim states that a fetch failure for one
profile aborts only that profile and processing continues with the
remaining profiles.  With profiles `a` and `b` where only `a`'s fetch
fails, the code's `?` on `fetch_tags` ends the whole push: profile `b` is
never fetched and no command at all is run. -/
theorem C5_counterexample :
    push fetchFailA execOk cfgTwo "reg" false =
      { fetched := ["a"], used := [], cmds := [],
        err := some "Failed to fetch tags", cache := [] } ∧
    "b" ∉ (push fetchFailA execOk cfgTwo "reg" false).fetched :=
  ⟨by decide, by decide⟩

/-- C5 (amended): a tag-metadata fetch failure aborts the entire push pass:
the loop returns the fetch error immediately, with no commands run and no
remaining pair — of the same or of any other profile — processed. -/
theorem C5_amended (fetch : FetchOracle) (exec : Executor) (registry : String)
    (p : PullProfile) (tag : String) (rest : List (PullProfile × String))
    (cache : List (String × FetchTagsResponse)) (e : String)
    (hmiss : mapLookup cache p.image = none)
    (hfail : fetch p.library p.repo = .error e) :
    pushLoop fetch exec registry ((p, tag) :: rest) cache =
      { fetched := [p.image], used := [], cmds := [],
        err := some "Failed to fetch tags", cache := cache } := by
  simp [pushLoop, hmiss, hfail]

/-- C5 (witness): the amended abort behavior on the two-profile scenario. -/
theorem C5_witness :
    pushLoop fetchFailA execOk "reg"
        [({ library := none, repo := "a", tags := ["t"] }, "t"),
         ({ library := none, repo := "b", tags := ["t"] }, "t")] [] =
      { fetched := ["a"], used := [], cmds := [],
        err := some "Failed to fetch tags", cache := [] } :=
  C5_amended fetchFailA execOk "reg"
    { library := none, repo := "a", tags := ["t"] } "t"
    [({ library := none, repo := "b", tags := ["t"] }, "t")] []
    "network unreachable" rfl rfl

/-- C6 (counterexample): the claim states a sub-step failure never aborts
processing of remaining targets, tags or profiles.  When the `docker tag`
command for the first tag cannot be launched, the `?` on `.output()` ends
the whole push: the second tag is never processed. -/
theorem C6_counterexample :
    push fetchEmptyOk execLaunchFail cfgOneTwoTags "reg" false =
      { fetched := ["img"], used := [("img", ⟨[]⟩)],
        cmds := [["tag", "img:t1", "reg/img:t1"]],
        err := some "Failed to tag image",
        cache := [("img", ⟨[]⟩)] } :=
  by decide

theorem pushTagStep_launch_ok (exec : Executor) (image tag : String)
    (targets : List String) (hexec : ∀ args, ∃ c, exec args = .ok c) :
    (pushTagStep exec image tag targets).2 = none := by
  induction targets with
  | nil => rfl
  | cons target rest ih =>
    obtain ⟨c1, h1⟩ := hexec ["tag", image ++ ":" ++ tag, target]
    obtain ⟨c2, h2⟩ := hexec ["push", target]
    obtain ⟨c3, h3⟩ := hexec ["image", "rm", target]
    simp [pushTagStep, h1, h2, h3, ih]

theorem cleanLoop_launch_ok (exec : Executor)
    (pairs : List (PullProfile × String))
    (hexec : ∀ args, ∃ c, exec args = .ok c) :
    (cleanLoop exec pairs).2 = none := by
  induction pairs with
  | nil => rfl
  | cons pr rest ih =>
    obtain ⟨p, tag⟩ := pr
    obtain ⟨c, h⟩ := hexec ["image", "rm", p.image ++ ":" ++ tag]
    simp [cleanLoop, h, ih]

theorem pushLoop_launch_ok (fetch : FetchOracle) (exec : Executor)
    (registry : String) (pairs : List (PullProfile × String))
    (cache : List (String × FetchTagsResponse))
    (hexec : ∀ args, ∃ c, exec args = .ok c)
    (hfetch : ∀ l r, ∃ resp, fetch l r = .ok resp) :
    (pushLoop fetch exec registry pairs cache).err = none := by
  induction pairs generalizing cache with
  | nil => rfl
  | cons pr rest ih =>
    obtain ⟨p, tag⟩ := pr
    cases hlook : mapLookup cache p.image with
    | some response =>
      have hstep := pushTagStep_launch_ok exec p.image tag
        (pushTargets registry p.image tag response) hexec
      simp [pushLoop, hlook, hstep, ih]
    | none =>
      obtain ⟨resp, hf⟩ := hfetch p.library p.repo
      have hstep := pushTagStep_launch_ok exec p.image tag
        (pushTargets registry p.image tag resp) hexec
      simp [pushLoop, hlook, hf, hstep, ih]

/-- C6 (amended): exit statuses of the three sub-steps are never even
inspected — let alone recorded — so non-zero exits never abort: when every
command can be launched and every fetch succeeds, the push pass (clean
included) completes over the whole batch with no error, whatever the exit
codes; but a command that cannot be launched aborts the entire push
immediately. -/
theorem C6_amended (fetch : FetchOracle) (exec : Executor) (config : Config)
    (registry : String) (clean : Bool)
    (hexec : ∀ args, ∃ c, exec args = .ok c)
    (hfetch : ∀ l r, ∃ resp, fetch l r = .ok resp) :
    (push fetch exec config registry clean).err = none := by
  have hp := pushLoop_launch_ok fetch exec registry (configPairs config) []
    hexec hfetch
  have hc := cleanLoop_launch_ok exec (configPairs config) hexec
  cases clean <;> simp [push, hp, hc]

/-- C6 (witness): a push with arbitrary exit codes but launchable commands
finishes without error. -/
theorem C6_witness :
    (push fetchEmptyOk execOk cfgOneTwoTags "reg" false).err = none :=
  C6_amended fetchEmptyOk execOk cfgOneTwoTags "reg" false
    (fun _ => ⟨0, rfl⟩) (fun _ _ => ⟨⟨[]⟩, rfl⟩)

theorem pullLoop_fails_at (exec : Executor) (pre : List (PullProfile × String))
    (p : PullProfile) (tag : String) (rest : List (PullProfile × String))
    (c : Int)
    (hpre : ∀ q ∈ pre, exec ["pull", q.1.image ++ ":" ++ q.2] = .ok 0)
    (hstat : exec ["pull", p.image ++ ":" ++ tag] = .ok c) (hc : c ≠ 0) :
    pullLoop exec (pre ++ (p, tag) :: rest) =
      (pre.map (fun q => ["pull", q.1.image ++ ":" ++ q.2]) ++
        [["pull", p.image ++ ":" ++ tag]],
       some ("Pull failed with status: " ++ toString c)) := by
  induction pre with
  | nil => simp [pullLoop, hstat, hc]
  | cons q pre ih =>
    obtain ⟨pq, tq⟩ := q
    have hq := hpre (pq, tq) (List.mem_cons_self _ _)
    have hrest : ∀ x ∈ pre, exec ["pull", x.1.image ++ ":" ++ x.2] = .ok 0 :=
      fun x hx => hpre x (List.mem_cons_of_mem _ hx)
    simp [pullLoop, hq, ih hrest]

/-- C7: a non-zero exit from any pull invocation is fatal: wherever the
failing `(profile, tag)` pair sits in the run — after arbitrarily many
earlier successful pulls — the pull loop returns the error right there,
its command trace being exactly the successful prefix plus the failing
pull, attempting no later pull of remaining tags or profiles; and `sync`
propagates that error with no fetch and no push command issued. -/
theorem C7_pull_fatal (fetch : FetchOracle) (exec : Executor) (registry : String)
    (clean : Bool) (config : Config) (pre : List (PullProfile × String))
    (p : PullProfile) (tag : String) (rest : List (PullProfile × String))
    (c : Int)
    (hpairs : configPairs config = pre ++ (p, tag) :: rest)
    (hpre : ∀ q ∈ pre, exec ["pull", q.1.image ++ ":" ++ q.2] = .ok 0)
    (hstat : exec ["pull", p.image ++ ":" ++ tag] = .ok c) (hc : c ≠ 0) :
    pullLoop exec (configPairs config) =
      (pre.map (fun q => ["pull", q.1.image ++ ":" ++ q.2]) ++
        [["pull", p.image ++ ":" ++ tag]],
       some ("Pull failed with status: " ++ toString c)) ∧
    sync fetch exec config registry clean =
      { fetched := [],
        pullCmds := pre.map (fun q => ["pull", q.1.image ++ ":" ++ q.2]) ++
          [["pull", p.image ++ ":" ++ tag]],
        pushCmds := [],
        err := some ("Pull failed with status: " ++ toString c) } := by
  have h1 := pullLoop_fails_at exec pre p tag rest c hpre hstat hc
  refine ⟨by rw [hpairs]; exact h1, ?_⟩
  simp [sync, hpairs, h1]

/-- C7 (witness): one profile declaring tags `t1` and `t2`; the pull of
`img:t1` succeeds and the pull of `img:t2` exits 1 — a failure at the
second position of the run.  Sync stops right there: its trace is the
successful first pull plus the failing one, with no fetch and no push
command. -/
theorem C7_witness :
    sync fetchEmptyOk execPullFailsSecond cfgOneTwoTags "reg" false =
      { fetched := [],
        pullCmds := [["pull", "img:t1"], ["pull", "img:t2"]],
        pushCmds := [],
        err := some ("Pull failed with status: " ++ toString (1 : Int)) } :=
  (C7_pull_fatal fetchEmptyOk execPullFailsSecond "reg" false cfgOneTwoTags
      [({ library := none, repo := "img", tags := ["t1", "t2"] }, "t1")]
      { library := none, repo := "img", tags := ["t1", "t2"] } "t2" [] 1
      rfl
      (by intro q hq; rw [List.mem_singleton] at hq; subst hq; rfl)
      rfl (by decide)).2

theorem mapLookup_cons_none {α : Type} (k i : String) (v : α)
    (m : List (String × α)) (h : mapLookup ((k, v) :: m) i = none) :
    mapLookup m i = none := by
  rw [mapLookup_cons] at h
  by_cases hk : k = i
  · simp [hk] at h
  · simpa [hk] using h

theorem pushLoop_cache_mono (fetch : FetchOracle) (exec : Executor)
    (registry : String) (pairs : List (PullProfile × String))
    (cache : List (String × FetchTagsResponse)) (i : String)
    (r : FetchTagsResponse) (h : mapLookup cache i = some r) :
    mapLookup (pushLoop fetch exec registry pairs cache).cache i = some r := by
  induction pairs generalizing cache with
  | nil => simpa [pushLoop]
  | cons pr rest ih =>
    obtain ⟨p, tag⟩ := pr
    cases hlook : mapLookup cache p.image with
    | some response =>
      cases hstep : (pushTagStep exec p.image tag
          (pushTargets registry p.image tag response)).2 with
      | some e => simpa [pushLoop, hlook, hstep]
      | none =>
        simp only [pushLoop, hlook, hstep]
        exact ih cache h
    | none =>
      cases hf : fetch p.library p.repo with
      | error e => simpa [pushLoop, hlook, hf]
      | ok response =>
        have hne : p.image ≠ i := by
          intro hh
          rw [hh, h] at hlook
          cases hlook
        have hcons : mapLookup ((p.image, response) :: cache) i = some r := by
          rw [mapLookup_cons]
          simp [hne, h]
        cases hstep : (pushTagStep exec p.image tag
            (pushTargets registry p.image tag response)).2 with
        | some e => simpa [pushLoop, hlook, hf, hstep]
        | none =>
          simp only [pushLoop, hlook, hf, hstep]
          exact ih _ hcons

theorem pushLoop_fetched_fresh (fetch : FetchOracle) (exec : Executor)
    (registry : String) (pairs : List (PullProfile × String))
    (cache : List (String × FetchTagsResponse)) :
    (pushLoop fetch exec registry pairs cache).fetched.Nodup ∧
    ∀ i ∈ (pushLoop fetch exec registry pairs cache).fetched,
      mapLookup cache i = none := by
  induction pairs generalizing cache with
  | nil => simp [pushLoop]
  | cons pr rest ih =>
    obtain ⟨p, tag⟩ := pr
    cases hlook : mapLookup cache p.image with
    | some response =>
      cases hstep : (pushTagStep exec p.image tag
          (pushTargets registry p.image tag response)).2 with
      | some e => simp [pushLoop, hlook, hstep]
      | none =>
        simpa [pushLoop, hlook, hstep] using ih cache
    | none =>
      cases hf : fetch p.library p.repo with
      | error e => simp [pushLoop, hlook, hf, hlook]
      | ok response =>
        obtain ⟨hnd, hfr⟩ := ih ((p.image, response) :: cache)
        cases hstep : (pushTagStep exec p.image tag
            (pushTargets registry p.image tag response)).2 with
        | some e => simp [pushLoop, hlook, hf, hstep, hlook]
        | none =>
          simp only [pushLoop, hlook, hf, hstep]
          constructor
          · refine List.nodup_cons.mpr ⟨?_, hnd⟩
            intro hmem
            have := hfr p.image hmem
            rw [mapLookup_cons] at this
            simp at this
          · intro i hi
            rcases List.mem_cons.mp hi with hi | hi
            · rw [hi]; exact hlook
            · exact mapLookup_cons_none _ _ _ _ (hfr i hi)

theorem pushLoop_used_consistent (fetch : FetchOracle) (exec : Executor)
    (registry : String) (pairs : List (PullProfile × String))
    (cache : List (String × FetchTagsResponse)) (i : String)
    (r : FetchTagsResponse)
    (h : (i, r) ∈ (pushLoop fetch exec registry pairs cache).used) :
    mapLookup (pushLoop fetch exec registry pairs cache).cache i = some r := by
  induction pairs generalizing cache with
  | nil => simp [pushLoop] at h
  | cons pr rest ih =>
    obtain ⟨p, tag⟩ := pr
    cases hlook : mapLookup cache p.image with
    | some response =>
      cases hstep : (pushTagStep exec p.image tag
          (pushTargets registry p.image tag response)).2 with
      | some e =>
        simp only [pushLoop, hlook, hstep] at h ⊢
        simp only [List.mem_singleton, Prod.mk.injEq] at h
        obtain ⟨hi, hr⟩ := h
        rw [hi, hr] at *
        exact hlook
      | none =>
        simp only [pushLoop, hlook, hstep] at h ⊢
        rcases List.mem_cons.mp h with heq | hmem
        · obtain ⟨hi, hr⟩ := Prod.mk.injEq .. ▸ heq
          rw [hi, hr]
          exact pushLoop_cache_mono fetch exec registry rest cache p.image
            response hlook
        · exact ih cache hmem
    | none =>
      cases hf : fetch p.library p.repo with
      | error e => simp [pushLoop, hlook, hf] at h
      | ok response =>
        have hself : mapLookup ((p.image, response) :: cache) p.image =
            some response := by
          rw [mapLookup_cons]
          simp
        cases hstep : (pushTagStep exec p.image tag
            (pushTargets registry p.image tag response)).2 with
        | some e =>
          simp only [pushLoop, hlook, hf, hstep] at h ⊢
          simp only [List.mem_singleton, Prod.mk.injEq] at h
          obtain ⟨hi, hr⟩ := h
          rw [hi, hr]
          exact hself
        | none =>
          simp only [pushLoop, hlook, hf, hstep] at h ⊢
          rcases List.mem_cons.mp h with heq | hmem
          · obtain ⟨hi, hr⟩ := Prod.mk.injEq .. ▸ heq
            rw [hi, hr]
            exact pushLoop_cache_mono fetch exec registry rest _ p.image
              response hself
          · exact ih _ hmem

theorem push_fetched_used (fetch : FetchOracle) (exec : Executor)
    (config : Config) (registry : String) (clean : Bool) :
    (push fetch exec config registry clean).fetched =
      (pushLoop fetch exec registry (configPairs config) []).fetched ∧
    (push fetch exec config registry clean).used =
      (pushLoop fetch exec registry (configPairs config) []).used := by
  cases herr : (pushLoop fetch exec registry (configPairs config) []).err <;>
    cases clean <;> simp [push, herr]

/-- C8: within one push the fetch oracle is called at most once per
canonical image identity — the list of identities actually fetched has no
duplicate — and every processed `(profile, tag)` pair of one identity
observes one and the same descriptor listing, the cached result of that
single fetch. -/
theorem C8_single_fetch (fetch : FetchOracle) (exec : Executor)
    (config : Config) (registry : String) (clean : Bool) :
    (push fetch exec config registry clean).fetched.Nodup ∧
    ∀ i r₁ r₂, (i, r₁) ∈ (push fetch exec config registry clean).used →
      (i, r₂) ∈ (push fetch exec config registry clean).used → r₁ = r₂ := by
  obtain ⟨hf, hu⟩ := push_fetched_used fetch exec config registry clean
  rw [hf, hu]
  refine ⟨(pushLoop_fetched_fresh fetch exec registry (configPairs config) []).1, ?_⟩
  intro i r₁ r₂ h1 h2
  have e1 := pushLoop_used_consistent fetch exec registry (configPairs config)
    [] i r₁ h1
  have e2 := pushLoop_used_consistent fetch exec registry (configPairs config)
    [] i r₂ h2
  rw [e1] at e2
  exact Option.some.inj e2

/-- C8 (witness): one profile with two tags of the same image: the fetched
identity list is duplicate-free and both processed pairs observed the same
listing. -/
theorem C8_witness :
    (push fetchEmptyOk execOk cfgOneTwoTags "reg" false).fetched.Nodup ∧
    (⟨[]⟩ : FetchTagsResponse) = ⟨[]⟩ :=
  ⟨(C8_single_fetch fetchEmptyOk execOk cfgOneTwoTags "reg" false).1,
   (C8_single_fetch fetchEmptyOk execOk cfgOneTwoTags "reg" false).2 "img"
     ⟨[]⟩ ⟨[]⟩ (by decide) (by decide)⟩

/-- C9: the claim states the fetcher concatenates all pages of a paginated
listing.  The code issues a single request with `page_size=100` and returns
that response: against a registry whose listing spans two pages it returns
exactly page one, not the concatenation of both pages. -/
theorem C9_code_behavior :
    fetch_tags hubTwoPages none "nginx" = .ok pageOne ∧
    fetch_tags hubTwoPages none "nginx" ≠
      .ok ⟨pageOne.results ++ pageTwo.results⟩ := by
  constructor
  · simp [fetch_tags, hubTwoPages]
  · simp [fetch_tags, hubTwoPages, pageOne, pageTwo]
